import Mathlib

/-!
Shallow embedding of `src/main.rs` of the BBC "6 minutes english" podcast
scraper, together with theorems checking the natural-language specification
against it.

Strings are modelled as `List Char`; the filesystem state of a single file is
`Option (List Char)` (`none` = absent).  Fallible operations return `Except`.
The network fetch and the ledger-append io outcome are supplied as boolean
oracles, since the transport is an external collaborator.  The per-candidate
download units are modelled two ways: a linearisation (`runTasks`, adequate for
the counters, the ledger content and the file set, because the ledger append is
a single atomic line write and the counters are atomic) and a small-step
transition system (`GateStep`) for the semaphore bound.
-/

abbrev Str := List Char

def strOf (s : String) : Str := s.toList

/-- Rust `str::contains` (substring containment): `strContains hay needle`
mirrors `hay.contains(needle)`. -/
def strContains (hay needle : Str) : Bool :=
  needle.isPrefixOf hay ||
    match hay with
    | [] => false
    | _ :: t => strContains t needle

/-- Spec-side notion: `needle` occurs as a (contiguous) substring of `hay`. -/
def occursIn (needle hay : Str) : Prop :=
  ∃ p s, hay = p ++ needle ++ s

/-- The exclusion marker checked at `main.rs:73`:
`href.contains("audio-nondrm-download-low")`. -/
def lowQualityMarker : Str := strOf "audio-nondrm-download-low"

/-- The header written by `PodcastDownloader::new` (`main.rs:38-41`) when the
index file does not exist: `writeln!` of `"Generate Podcast Downloader\n"`
followed by forty dashes, with a final newline added by `writeln!`. -/
def headerText : Str :=
  strOf "Generate Podcast Downloader\n" ++ List.replicate 40 '-' ++ [ '\n' ]

/-- Ledger-file initialisation done by `PodcastDownloader::new` (`main.rs:38-41`):
if the index file does not exist it is created holding `headerText`, otherwise
it is left untouched. -/
def initLedger (file : Option Str) : Option Str :=
  match file with
  | none => some headerText
  | some c => some c

abbrev IOErr := Str

deriving instance DecidableEq for Except

/-- Outcome of `fs::read_to_string` on the modelled file state. -/
def readFile (file : Option Str) : Except IOErr Str :=
  match file with
  | some c => .ok c
  | none => .error (strOf "No such file or directory")

/-- `PodcastDownloader::is_already_downloaded` (`main.rs:141-146`): on a
successful read it reports `content.contains(url)`; on a read error it
returns `Ok(false)`. -/
def is_already_downloaded (readResult : Except IOErr Str) (url : Str) :
    Except IOErr Bool :=
  match readResult with
  | .ok content => .ok (strContains content url)
  | .error _ => .ok false

/-- `is_already_downloaded` instrumented with the list of log lines the
function itself emits.  The source's `Err(_) => Ok(false)` arm (`main.rs:144`)
binds the error to `_` and contains no print: both arms emit nothing. -/
def is_already_downloaded_logged (readResult : Except IOErr Str) (url : Str) :
    Except IOErr Bool × List Str :=
  match readResult with
  | .ok content => (.ok (strContains content url), [])
  | .error _ => (.ok false, [])

/-- `download_attr.replace(" ", "_")` (`main.rs:150`). -/
def cleanName (attr : Str) : Str :=
  attr.map (fun c => if c = ' ' then '_' else c)

/-- `PodcastDownloader::extract_filename` (`main.rs:148-162`), as a function of
the element's `download` attribute: replace spaces by underscores, then
`split(",").nth(1).unwrap_or(&clean_name)`; with no `download` attribute the
function errors. -/
def extract_filename (downloadAttr : Option Str) : Except IOErr Str :=
  match downloadAttr with
  | some attr =>
    let clean := cleanName attr
    .ok ((clean.splitOn ',').getD 1 clean)
  | none => .error (strOf "No download attribute found")

/-- The line appended by `writeln!(file, "{} {}", timestamp, url)`
(`main.rs:183`). -/
def recordLine (ts url : Str) : Str := ts ++ ' ' :: url ++ [ '\n' ]

/-- `PodcastDownloader::record_download` (`main.rs:178-185`): the file is
opened with `create(true).append(true)`, so an absent file is created empty and
the timestamped line is appended to whatever content exists. -/
def record_download (ts url : Str) (file : Option Str) : Option Str :=
  match file with
  | none => some (recordLine ts url)
  | some c => some (c ++ recordLine ts url)

/-- One anchor element of the listing page: its `href` attribute and its
optional `download` attribute. -/
structure Candidate where
  href : Str
  downloadAttr : Option Str
deriving Repr, DecidableEq

/-- The collection loop of `download_episodes` (`main.rs:69-81`): a candidate
survives when its href does not contain the low-quality marker (checked first,
short-circuiting), `is_already_downloaded` reports false, and a filename can be
extracted.  `ledgerRead` is the result `fs::read_to_string` yields during the
scan; no download or record has happened yet, so it is the same for every
candidate. -/
def collect_tasks (ledgerRead : Except IOErr Str) :
    List Candidate → Except IOErr (List (Str × Str))
  | [] => .ok []
  | c :: rest =>
    if strContains c.href lowQualityMarker then
      collect_tasks ledgerRead rest
    else
      match is_already_downloaded ledgerRead c.href with
      | .error e => .error e
      | .ok true => collect_tasks ledgerRead rest
      | .ok false =>
        match extract_filename c.downloadAttr with
        | .ok filename =>
          match collect_tasks ledgerRead rest with
          | .error e => .error e
          | .ok ts => .ok ((c.href, filename) :: ts)
        | .error _ => collect_tasks ledgerRead rest

/-- Mutable state touched by the download units: the index-file content, the
set of files fully written, and the two atomic counters (`completed`,
`failed`). -/
structure RunState where
  ledger : Option Str
  files : List Str
  completed : Nat
  failed : Nat
deriving Repr, DecidableEq

/-- One download unit (the async block, `main.rs:105-123`).  `fetchOk url`
models the outcome of `download_file` (network fetch followed by the full byte
write of `tokio::fs::write`); `recOk url` models the io outcome of
`record_download`.  On fetch success the file is written first, then the ledger
line is appended (a record error is only logged: the unit still counts as
completed); on fetch failure only the failed counter moves. -/
def runTask (fetchOk recOk : Str → Bool) (ts : Str) (st : RunState)
    (task : Str × Str) : RunState :=
  if fetchOk task.1 then
    let afterWrite : RunState := { st with files := st.files ++ [task.2] }
    let afterRecord : RunState :=
      if recOk task.1 then
        { afterWrite with ledger := record_download ts task.1 afterWrite.ledger }
      else afterWrite
    { afterRecord with completed := afterRecord.completed + 1 }
  else
    { st with failed := st.failed + 1 }

/-- Linearisation of the gated concurrent units joined by `join_all`
(`main.rs:96-128`): each ledger append is one atomic line write and the
counters are atomic, so any interleaving produces this state. -/
def runTasks (fetchOk recOk : Str → Bool) (ts : Str) (st : RunState) :
    List (Str × Str) → RunState
  | [] => st
  | t :: rest => runTasks fetchOk recOk ts (runTask fetchOk recOk ts st t) rest

/-- The per-source outcome reported by `download_episodes`: the
"No new episodes found" early return (`main.rs:84-87`) or the final
"Download: {} completed, {} failed" summary (`main.rs:130-136`). -/
structure RunResult where
  noNew : Bool
  total : Nat
  completed : Nat
  failed : Nat
deriving Repr, DecidableEq

/-- `PodcastDownloader::download_episodes` (`main.rs:52-139`) after the listing
fetch and parse: collect the surviving tasks, return early when none survive,
otherwise run every unit to completion and report the counters. -/
def download_episodes (ledgerRead : Except IOErr Str) (ledgerFile : Option Str)
    (fetchOk recOk : Str → Bool) (ts : Str) (cands : List Candidate) :
    Except IOErr (RunResult × RunState) :=
  match collect_tasks ledgerRead cands with
  | .error e => .error e
  | .ok tasks =>
    if tasks.isEmpty then
      .ok ({ noNew := true, total := 0, completed := 0, failed := 0 },
           { ledger := ledgerFile, files := [], completed := 0, failed := 0 })
    else
      let final := runTasks fetchOk recOk ts
        { ledger := ledgerFile, files := [], completed := 0, failed := 0 } tasks
      .ok ({ noNew := false, total := tasks.length,
             completed := final.completed, failed := final.failed }, final)

/-- Phase of one download unit with respect to the gate: the unit first waits
for a permit of the semaphore (`main.rs:106`), holds it through the fetch and
byte write (`download_file`) and then through the ledger record, and the permit
is dropped when the async block ends, on success and on failure alike. -/
inductive Phase
  | pending
  | downloading
  | recording
  | done
deriving Repr, DecidableEq

/-- The phases during which a unit holds a semaphore permit. -/
def holdsSlot : Phase → Bool
  | .downloading => true
  | .recording => true
  | _ => false

/-- `tokio::sync::Semaphore::new(4)` (`main.rs:92`). -/
def gateCapacity : Nat := 4

/-- Number of units currently holding a permit. -/
def holdingCount (ps : List Phase) : Nat := ps.countP holdsSlot

/-- Interleaving steps of the gated download units: `acquire` fires only while
fewer than `gateCapacity` permits are out (`semaphore.acquire().await`);
`fetched` moves a unit from the fetch+write to the ledger record; `fetchFailed`
and `recorded` end the unit's async block, dropping the permit. -/
inductive GateStep : List Phase → List Phase → Prop
  | acquire (ps : List Phase) (i : Nat) :
      ps[i]? = some .pending → holdingCount ps < gateCapacity →
      GateStep ps (ps.set i .downloading)
  | fetched (ps : List Phase) (i : Nat) :
      ps[i]? = some .downloading → GateStep ps (ps.set i .recording)
  | fetchFailed (ps : List Phase) (i : Nat) :
      ps[i]? = some .downloading → GateStep ps (ps.set i .done)
  | recorded (ps : List Phase) (i : Nat) :
      ps[i]? = some .recording → GateStep ps (ps.set i .done)

/-- States reachable by a workload of `m` download units, all initially
waiting at the gate. -/
inductive GateReach (m : Nat) : List Phase → Prop
  | init : GateReach m (List.replicate m .pending)
  | step {ps ps' : List Phase} : GateReach m ps → GateStep ps ps' → GateReach m ps'

/-- The tasks of a batch whose fetch-and-write (`download_file`) succeeds. -/
def writtenTasks (fetchOk : Str → Bool) (tasks : List (Str × Str)) :
    List (Str × Str) :=
  tasks.filter (fun t => fetchOk t.1)

/-- The tasks of a batch whose fetch-and-write fails. -/
def failedTasks (fetchOk : Str → Bool) (tasks : List (Str × Str)) :
    List (Str × Str) :=
  tasks.filter (fun t => !fetchOk t.1)

/-- The tasks whose fetch succeeds and whose ledger append also succeeds. -/
def recordedTasks (fetchOk recOk : Str → Bool) (tasks : List (Str × Str)) :
    List (Str × Str) :=
  tasks.filter (fun t => fetchOk t.1 && recOk t.1)

/-- The ledger text a run appends: one `recordLine` per recorded task. -/
def ledgerAppendix (ts : Str) (tasks : List (Str × Str)) : Str :=
  (tasks.map (fun t => recordLine ts t.1)).flatten

/-- Scenario candidate matching the low-quality exclusion marker. -/
def c5Low : Candidate :=
  ⟨strOf "//x/audio-nondrm-download-low.mp3", some (strOf "L,low.mp3")⟩

/-- Scenario candidate whose reference is already in the ledger. -/
def c5Old : Candidate := ⟨strOf "//x/old.mp3", some (strOf "L,old.mp3")⟩

/-- Scenario candidate that is new. -/
def c5New : Candidate := ⟨strOf "//x/new.mp3", some (strOf "L,new.mp3")⟩

/-- Scenario ledger: the header plus one recorded entry for `c5Old`. -/
def c5Ledger : Str :=
  headerText ++ recordLine (strOf "20240101000000") (strOf "//x/old.mp3")

theorem countP_set_add (p : Phase → Bool) (l : List Phase) (i : Nat)
    (a b : Phase) (h : l[i]? = some a) :
    (l.set i b).countP p + (if p a then 1 else 0)
      = l.countP p + (if p b then 1 else 0) := by
  induction l generalizing i with
  | nil => simp at h
  | cons x xs ih =>
    cases i with
    | zero =>
      simp only [List.getElem?_cons_zero, Option.some.injEq] at h
      subst h
      simp only [List.set, List.countP_cons]
      omega
    | succ j =>
      simp only [List.getElem?_cons_succ] at h
      simp only [List.set, List.countP_cons, ih j h]
      have := ih j h
      omega

theorem gateStep_bound {ps ps' : List Phase} (h : GateStep ps ps')
    (hb : holdingCount ps ≤ gateCapacity) : holdingCount ps' ≤ gateCapacity := by
  cases h with
  | acquire i hi hlt =>
    have hc := countP_set_add holdsSlot ps i _ .downloading hi
    simp [holdsSlot] at hc
    unfold holdingCount gateCapacity at *
    omega
  | fetched i hi =>
    have hc := countP_set_add holdsSlot ps i _ .recording hi
    simp [holdsSlot] at hc
    unfold holdingCount gateCapacity at *
    omega
  | fetchFailed i hi =>
    have hc := countP_set_add holdsSlot ps i _ .done hi
    simp [holdsSlot] at hc
    unfold holdingCount gateCapacity at *
    omega
  | recorded i hi =>
    have hc := countP_set_add holdsSlot ps i _ .done hi
    simp [holdsSlot] at hc
    unfold holdingCount gateCapacity at *
    omega

theorem gateReach_bound {m : Nat} {ps : List Phase} (h : GateReach m ps) :
    holdingCount ps ≤ gateCapacity := by
  induction h with
  | init => simp [holdingCount, List.countP_replicate, holdsSlot, gateCapacity]
  | step _ hstep ih => exact gateStep_bound hstep ih

/-- C1: with gate capacity 4 and any workload of more than 4 units, in every
reachable interleaving state at most 4 download units hold a semaphore permit
simultaneously; a unit acquires its permit before fetching and keeps it through
its download, write and ledger record, releasing it only when its async block
ends. -/
theorem gate_slots_bounded (m : Nat) (ps : List Phase) (_hm : 4 < m)
    (h : GateReach m ps) : holdingCount ps ≤ gateCapacity :=
  gateReach_bound h

theorem gate_slots_bounded_witness :
    holdingCount ((List.replicate 5 Phase.pending).set 0 .downloading)
      ≤ gateCapacity :=
  gate_slots_bounded 5 _ (by decide)
    (GateReach.step GateReach.init
      (GateStep.acquire (List.replicate 5 Phase.pending) 0 (by decide) (by decide)))

theorem isPrefixOf_iff (n l : Str) : n.isPrefixOf l = true ↔ ∃ s, l = n ++ s := by
  induction n generalizing l with
  | nil => simp [List.isPrefixOf]
  | cons a as ih =>
    cases l with
    | nil => simp [List.isPrefixOf]
    | cons b bs =>
      simp [List.isPrefixOf, ih, List.cons.injEq, eq_comm (a := b)]

theorem occursIn_nil (n : Str) : occursIn n [] ↔ n = [] := by
  constructor
  · rintro ⟨p, s, hp⟩
    have := hp.symm
    simp only [List.append_assoc, List.append_eq_nil] at this
    exact this.2.1
  · rintro rfl
    exact ⟨[], [], rfl⟩

theorem occursIn_cons (n : Str) (a : Char) (t : Str) :
    occursIn n (a :: t) ↔ (∃ s, a :: t = n ++ s) ∨ occursIn n t := by
  constructor
  · rintro ⟨p, s, hp⟩
    cases p with
    | nil => exact Or.inl ⟨s, by simpa using hp⟩
    | cons x xs =>
      simp only [List.cons_append, List.cons.injEq] at hp
      exact Or.inr ⟨xs, s, hp.2⟩
  · rintro (⟨s, hs⟩ | ⟨p, s, hp⟩)
    · exact ⟨[], s, by simpa using hs⟩
    · exact ⟨a :: p, s, by simp [hp]⟩

theorem strContains_iff (hay needle : Str) :
    strContains hay needle = true ↔ occursIn needle hay := by
  induction hay with
  | nil =>
    rw [strContains, occursIn_nil]
    cases needle with
    | nil => simp
    | cons x xs => simp [List.isPrefixOf]
  | cons a t ih =>
    rw [strContains]
    simp only [Bool.or_eq_true, isPrefixOf_iff, ih, occursIn_cons]

theorem occursIn_append_left {n h : Str} (d : Str) (ho : occursIn n h) :
    occursIn n (h ++ d) := by
  rcases ho with ⟨p, s, rfl⟩
  exact ⟨p, s ++ d, by simp⟩

theorem occursIn_append_right {n h : Str} (d : Str) (ho : occursIn n h) :
    occursIn n (d ++ h) := by
  rcases ho with ⟨p, s, rfl⟩
  exact ⟨d ++ p, s, by simp⟩

theorem occursIn_recordLine (ts url : Str) : occursIn url (recordLine ts url) :=
  ⟨ts ++ [' '], ['\n'], by simp [recordLine]⟩

theorem runTasks_spec (fetchOk recOk : Str → Bool) (ts : Str)
    (tasks : List (Str × Str)) (st : RunState) (c : Str)
    (hc : st.ledger = some c) :
    (runTasks fetchOk recOk ts st tasks).ledger
        = some (c ++ ledgerAppendix ts (recordedTasks fetchOk recOk tasks)) ∧
    (runTasks fetchOk recOk ts st tasks).files
        = st.files ++ (writtenTasks fetchOk tasks).map (fun t => t.2) ∧
    (runTasks fetchOk recOk ts st tasks).completed
        = st.completed + (writtenTasks fetchOk tasks).length ∧
    (runTasks fetchOk recOk ts st tasks).failed
        = st.failed + (failedTasks fetchOk tasks).length := by
  induction tasks generalizing st c with
  | nil =>
    simp [runTasks, ledgerAppendix, recordedTasks, writtenTasks, failedTasks, hc]
  | cons t rest ih =>
    rw [runTasks]
    by_cases hf : fetchOk t.1
    · by_cases hr : recOk t.1
      · have hstep : runTask fetchOk recOk ts st t =
            ⟨some (c ++ recordLine ts t.1), st.files ++ [t.2],
             st.completed + 1, st.failed⟩ := by
          simp [runTask, hf, hr, hc, record_download]
        rw [hstep]
        rcases ih ⟨some (c ++ recordLine ts t.1), st.files ++ [t.2],
            st.completed + 1, st.failed⟩ (c ++ recordLine ts t.1) rfl
          with ⟨hL, hF, hC, hX⟩
        refine ⟨?_, ?_, ?_, ?_⟩
        · rw [hL]
          simp [recordedTasks, ledgerAppendix, List.filter_cons, hf, hr]
        · rw [hF]
          simp [writtenTasks, List.filter_cons, hf]
        · rw [hC]
          simp only [writtenTasks, List.filter_cons, hf]
          simp
          omega
        · rw [hX]
          simp [failedTasks, List.filter_cons, hf]
      · have hstep : runTask fetchOk recOk ts st t =
            ⟨some c, st.files ++ [t.2], st.completed + 1, st.failed⟩ := by
          simp [runTask, hf, hr, hc]
        rw [hstep]
        rcases ih ⟨some c, st.files ++ [t.2], st.completed + 1, st.failed⟩ c rfl
          with ⟨hL, hF, hC, hX⟩
        refine ⟨?_, ?_, ?_, ?_⟩
        · rw [hL]
          simp [recordedTasks, List.filter_cons, hf, hr]
        · rw [hF]
          simp [writtenTasks, List.filter_cons, hf]
        · rw [hC]
          simp only [writtenTasks, List.filter_cons, hf]
          simp
          omega
        · rw [hX]
          simp [failedTasks, List.filter_cons, hf]
    · have hstep : runTask fetchOk recOk ts st t =
          ⟨st.ledger, st.files, st.completed, st.failed + 1⟩ := by
        simp [runTask, hf]
      rw [hstep]
      rcases ih ⟨st.ledger, st.files, st.completed, st.failed + 1⟩ c hc
        with ⟨hL, hF, hC, hX⟩
      refine ⟨?_, ?_, ?_, ?_⟩
      · rw [hL]
        simp [recordedTasks, List.filter_cons, hf]
      · rw [hF]
        simp [writtenTasks, List.filter_cons, hf]
      · rw [hC]
        simp [writtenTasks, List.filter_cons, hf]
      · rw [hX]
        simp only [failedTasks, List.filter_cons, hf]
        simp
        omega

theorem occursIn_ledgerAppendix (ts : Str) (tasks : List (Str × Str))
    (t : Str × Str) (ht : t ∈ tasks) :
    occursIn t.1 (ledgerAppendix ts tasks) := by
  induction tasks with
  | nil => cases ht
  | cons x rest ih =>
    have hexp : ledgerAppendix ts (x :: rest)
        = recordLine ts x.1 ++ ledgerAppendix ts rest := by
      simp [ledgerAppendix]
    rw [hexp]
    rcases List.mem_cons.mp ht with rfl | hmem
    · exact occursIn_append_left _ (occursIn_recordLine ts t.1)
    · exact occursIn_append_right _ (ih hmem)

theorem exists_after_record (f : Option Str) (ts u : Str) :
    is_already_downloaded (readFile (record_download ts u f)) u = .ok true := by
  cases f with
  | none =>
    simp only [record_download, readFile, is_already_downloaded, Except.ok.injEq]
    exact (strContains_iff _ _).mpr (occursIn_recordLine ts u)
  | some c =>
    simp only [record_download, readFile, is_already_downloaded, Except.ok.injEq]
    exact (strContains_iff _ _).mpr
      (occursIn_append_right _ (occursIn_recordLine ts u))

theorem collect_tasks_absorbed (cands : List Candidate) (c L : Str)
    (tasks : List (Str × Str))
    (hcol : collect_tasks (.ok c) cands = .ok tasks)
    (hmono : ∀ u : Str, occursIn u c → occursIn u L)
    (htask : ∀ t ∈ tasks, occursIn t.1 L) :
    collect_tasks (.ok L) cands = .ok [] := by
  induction cands generalizing tasks with
  | nil => rw [collect_tasks]
  | cons cd rest ih =>
    rw [collect_tasks] at hcol ⊢
    simp only [is_already_downloaded] at hcol ⊢
    by_cases hex : strContains cd.href lowQualityMarker
    · rw [if_pos hex] at hcol ⊢
      exact ih _ hcol htask
    · rw [if_neg hex] at hcol ⊢
      cases hcc : strContains c cd.href with
      | true =>
        simp only [hcc] at hcol
        have hL : strContains L cd.href = true :=
          (strContains_iff L cd.href).mpr
            (hmono _ ((strContains_iff c cd.href).mp hcc))
        simp only [hL]
        exact ih _ hcol htask
      | false =>
        simp only [hcc] at hcol
        cases hfn : extract_filename cd.downloadAttr with
        | ok fn =>
          simp only [hfn] at hcol
          cases hrest : collect_tasks (Except.ok c) rest with
          | error e => rw [hrest] at hcol; cases hcol
          | ok ts =>
            rw [hrest] at hcol
            simp only [Except.ok.injEq] at hcol
            subst hcol
            have hhd : occursIn cd.href L := htask (cd.href, fn) (by simp)
            have hL : strContains L cd.href = true := (strContains_iff _ _).mpr hhd
            simp only [hL]
            exact ih ts hrest (fun t ht => htask t (by simp [ht]))
        | error e =>
          simp only [hfn] at hcol
          cases hLc : strContains L cd.href with
          | true =>
            simp only [hLc]
            exact ih _ hcol htask
          | false =>
            simp only [hLc, hfn]
            exact ih _ hcol htask

/-- C2: after a successful download and record of a reference, the existence
check on the resulting ledger returns true; and a second run against the
unchanged listing and the ledger left by a fully successful first run
dispatches zero fetches and downloads zero new items — every previously
dispatched candidate is now contained in the ledger, and the run reports no
new episodes. -/
theorem second_run_downloads_nothing
    (cands : List Candidate) (c ts : Str) (fetchOk recOk : Str → Bool)
    (tasks : List (Str × Str))
    (hcol : collect_tasks (.ok c) cands = .ok tasks)
    (hall : ∀ t ∈ tasks, fetchOk t.1 = true ∧ recOk t.1 = true) :
    (∀ (f : Option Str) (ts2 u : Str),
        is_already_downloaded (readFile (record_download ts2 u f)) u = .ok true) ∧
    ∀ L : Str,
      (runTasks fetchOk recOk ts ⟨some c, [], 0, 0⟩ tasks).ledger = some L →
      collect_tasks (.ok L) cands = .ok [] ∧
      download_episodes (.ok L) (some L) fetchOk recOk ts cands
        = .ok ({ noNew := true, total := 0, completed := 0, failed := 0 },
               ⟨some L, [], 0, 0⟩) := by
  refine ⟨exists_after_record, ?_⟩
  intro L hL
  have hspec :=
    (runTasks_spec fetchOk recOk ts tasks ⟨some c, [], 0, 0⟩ c rfl).1
  rw [hL] at hspec
  have hrec : recordedTasks fetchOk recOk tasks = tasks := by
    unfold recordedTasks
    refine List.filter_eq_self.mpr (fun t ht => ?_)
    simp [(hall t ht).1, (hall t ht).2]
  rw [hrec] at hspec
  have hLeq : L = c ++ ledgerAppendix ts tasks := by
    simpa using hspec
  have hmono : ∀ u : Str, occursIn u c → occursIn u L := by
    intro u hu
    rw [hLeq]
    exact occursIn_append_left _ hu
  have htask : ∀ t ∈ tasks, occursIn t.1 L := by
    intro t ht
    rw [hLeq]
    exact occursIn_append_right _ (occursIn_ledgerAppendix ts tasks t ht)
  have habs := collect_tasks_absorbed cands c L tasks hcol hmono htask
  refine ⟨habs, ?_⟩
  rw [download_episodes, habs]
  rfl

theorem second_run_downloads_nothing_witness :
    collect_tasks
        (.ok (headerText ++ recordLine (strOf "20240101000000") (strOf "/a.mp3")))
        [⟨strOf "/a.mp3", some (strOf "x,a.mp3")⟩] = .ok [] :=
  ((second_run_downloads_nothing [⟨strOf "/a.mp3", some (strOf "x,a.mp3")⟩]
      headerText (strOf "20240101000000") (fun _ => true) (fun _ => true)
      [(strOf "/a.mp3", strOf "a.mp3")] (by rfl) (by decide)).2
    (headerText ++ recordLine (strOf "20240101000000") (strOf "/a.mp3"))
    (by decide)).1

/-- C3: in a batch where the fetch of item A fails and the fetch-and-write of
item B succeeds, the run completes without aborting: B's reference is appended
to the ledger (and then reported as already downloaded), A's reference is not
(provided it does not happen to occur as a substring of the resulting text),
the failed counter moves exactly once (for A) and the completed counter exactly
once (for B), and `download_episodes` still returns `Ok` with the aggregate
counts. -/
theorem failure_isolated
    (a fa b fb ts c : Str) (fetchOk recOk : Str → Bool)
    (hfa : fetchOk a = false) (hfb : fetchOk b = true) (hrb : recOk b = true) :
    runTasks fetchOk recOk ts ⟨some c, [], 0, 0⟩ [(a, fa), (b, fb)]
      = ⟨some (c ++ recordLine ts b), [fb], 1, 1⟩ ∧
    is_already_downloaded (readFile (record_download ts b (some c))) b
      = .ok true ∧
    (¬ occursIn a (c ++ recordLine ts b) →
      is_already_downloaded (.ok (c ++ recordLine ts b)) a = .ok false) ∧
    ∀ (lr : Except IOErr Str) (cands : List Candidate),
      collect_tasks lr cands = .ok [(a, fa), (b, fb)] →
      download_episodes lr (some c) fetchOk recOk ts cands
        = .ok ({ noNew := false, total := 2, completed := 1, failed := 1 },
               ⟨some (c ++ recordLine ts b), [fb], 1, 1⟩) := by
  have hrun : runTasks fetchOk recOk ts ⟨some c, [], 0, 0⟩ [(a, fa), (b, fb)]
      = ⟨some (c ++ recordLine ts b), [fb], 1, 1⟩ := by
    simp [runTasks, runTask, hfa, hfb, hrb, record_download]
  refine ⟨hrun, exists_after_record (some c) ts b, ?_, ?_⟩
  · intro hno
    have hfalse : strContains (c ++ recordLine ts b) a = false := by
      cases hh : strContains (c ++ recordLine ts b) a with
      | true => exact absurd ((strContains_iff _ _).mp hh) hno
      | false => rfl
    simp [is_already_downloaded, hfalse]
  · intro lr cands hcol
    rw [download_episodes, hcol]
    simp [hrun]

theorem failure_isolated_witness :
    runTasks (fun u => u == strOf "/b.mp3") (fun _ => true)
        (strOf "20240101000000") ⟨some headerText, [], 0, 0⟩
        [(strOf "/a.mp3", strOf "a.mp3"), (strOf "/b.mp3", strOf "b.mp3")]
      = ⟨some (headerText ++ recordLine (strOf "20240101000000") (strOf "/b.mp3")),
         [strOf "b.mp3"], 1, 1⟩ :=
  (failure_isolated (strOf "/a.mp3") (strOf "a.mp3") (strOf "/b.mp3")
      (strOf "b.mp3") (strOf "20240101000000") headerText
      (fun u => u == strOf "/b.mp3") (fun _ => true)
      (by decide) (by decide) (by decide)).1

/-- C4 counterexample: a unit whose fetch and byte write succeed but whose
ledger append fails (`record_download` returning `Err`, which the code only
logs, `main.rs:112-114`) leaves the file fully written and the unit counted as
completed while the reference never appears in the ledger — so "a reference
appears in the ledger if and only if its file was successfully written" fails
in the file-to-ledger direction. -/
theorem ledger_iff_written_fails :
    runTasks (fun _ => true) (fun _ => false) (strOf "20240101000000")
        ⟨some headerText, [], 0, 0⟩ [(strOf "/a.mp3", strOf "a.mp3")]
      = ⟨some headerText, [strOf "a.mp3"], 1, 0⟩ ∧
    is_already_downloaded (.ok headerText) (strOf "/a.mp3") = .ok false := by
  decide

/-- C4 (amended): the ledger-to-file direction holds: the run appends to the
ledger exactly one `recordLine` per task whose fetch-and-write succeeded and
whose append succeeded, every recorded reference comes from a successful write
whose file is among the files written, and a single unit extends the ledger
only when its file write has already completed (the state whose ledger moved
already holds the file).  The converse direction can fail when the append
errors, which the code tolerates. -/
theorem ledger_only_after_write (fetchOk recOk : Str → Bool) (ts c : Str)
    (tasks : List (Str × Str)) (st : RunState) (hc : st.ledger = some c) :
    (runTasks fetchOk recOk ts st tasks).ledger
      = some (c ++ ledgerAppendix ts (recordedTasks fetchOk recOk tasks)) ∧
    (∀ t ∈ recordedTasks fetchOk recOk tasks,
        fetchOk t.1 = true ∧ t.2 ∈ (runTasks fetchOk recOk ts st tasks).files) ∧
    ∀ t : Str × Str,
      (runTask fetchOk recOk ts st t).ledger ≠ st.ledger →
      fetchOk t.1 = true ∧ t.2 ∈ (runTask fetchOk recOk ts st t).files := by
  rcases runTasks_spec fetchOk recOk ts tasks st c hc with ⟨hL, hF, _, _⟩
  refine ⟨hL, ?_, ?_⟩
  · intro t ht
    have hmem : t ∈ tasks ∧ (fetchOk t.1 && recOk t.1) = true :=
      List.mem_filter.mp ht
    obtain ⟨hfo, -⟩ : fetchOk t.1 = true ∧ recOk t.1 = true := by
      simpa using hmem.2
    refine ⟨hfo, ?_⟩
    rw [hF]
    refine List.mem_append.mpr (Or.inr ?_)
    exact List.mem_map_of_mem _
      (List.mem_filter.mpr ⟨hmem.1, hfo⟩)
  · intro t hne
    by_cases hfo : fetchOk t.1
    · refine ⟨hfo, ?_⟩
      by_cases hro : recOk t.1 <;> simp [runTask, hfo, hro]
    · exact absurd (by simp [runTask, hfo]) hne

theorem ledger_only_after_write_witness :
    (runTasks (fun _ => true) (fun _ => true) (strOf "t")
        ⟨some headerText, [], 0, 0⟩ [(strOf "/a.mp3", strOf "a.mp3")]).ledger
      = some (headerText ++ ledgerAppendix (strOf "t")
          (recordedTasks (fun _ => true) (fun _ => true)
            [(strOf "/a.mp3", strOf "a.mp3")])) :=
  (ledger_only_after_write (fun _ => true) (fun _ => true) (strOf "t")
      headerText [(strOf "/a.mp3", strOf "a.mp3")]
      ⟨some headerText, [], 0, 0⟩ rfl).1

/-- C5: on a listing with one excluded, one already-recorded and one new
candidate, the exclusion check is applied before the ledger check
(short-circuit `&&`, `main.rs:73-74`), exactly one fetch is dispatched, one
ledger line is appended and the result is one completed, zero failed; and
whenever zero candidates survive filtering, the run reports no new episodes
and terminates successfully. -/
theorem end_to_end_scenario :
    collect_tasks (.ok c5Ledger) [c5Low, c5Old, c5New]
      = .ok [(strOf "//x/new.mp3", strOf "new.mp3")] ∧
    download_episodes (.ok c5Ledger) (some c5Ledger) (fun _ => true)
        (fun _ => true) (strOf "20240102000000") [c5Low, c5Old, c5New]
      = .ok ({ noNew := false, total := 1, completed := 1, failed := 0 },
             ⟨some (c5Ledger ++ recordLine (strOf "20240102000000")
                 (strOf "//x/new.mp3")),
              [strOf "new.mp3"], 1, 0⟩) ∧
    ∀ (lr : Except IOErr Str) (lf : Option Str) (fo ro : Str → Bool)
      (ts : Str) (cands : List Candidate),
      collect_tasks lr cands = .ok [] →
      download_episodes lr lf fo ro ts cands
        = .ok ({ noNew := true, total := 0, completed := 0, failed := 0 },
               ⟨lf, [], 0, 0⟩) := by
  refine ⟨by decide, by decide, ?_⟩
  intro lr lf fo ro ts cands hcol
  rw [download_episodes, hcol]
  rfl

theorem end_to_end_scenario_witness :
    download_episodes (.ok []) none (fun _ => true) (fun _ => true) [] []
      = .ok ({ noNew := true, total := 0, completed := 0, failed := 0 },
             ⟨none, [], 0, 0⟩) :=
  end_to_end_scenario.2.2 (.ok []) none (fun _ => true) (fun _ => true) [] []
    (by decide)

theorem comma_not_mem_cleanName {a : Str} (h : ',' ∉ a) : ',' ∉ cleanName a := by
  intro hc
  rcases List.mem_map.mp hc with ⟨x, hx, hfx⟩
  by_cases hsp : x = ' '
  · rw [if_pos hsp] at hfx
    exact absurd hfx (by decide)
  · rw [if_neg hsp] at hfx
    exact h (hfx ▸ hx)

theorem no_comma_beq {l : Str} (h : ',' ∉ l) :
    ∀ x ∈ l, ¬ ((x == ',') = true) := by
  intro x hx hbe
  exact h ((beq_iff_eq.mp hbe : x = ',') ▸ hx)

theorem splitOn_second {a b : Str} (ha : ',' ∉ a) (hb : ',' ∉ b) :
    (a ++ ',' :: b).splitOn ',' = [a, b] := by
  rw [List.splitOn]
  rw [List.splitOnP_first _ _ (no_comma_beq ha) ',' (by simp)]
  rw [List.splitOnP_eq_single _ _ (no_comma_beq hb)]

/-- C6 counterexample: the whitespace normalisation happens before the split,
so for the input `"Label, real_file.mp3"` the space after the comma becomes a
leading underscore: the derived filename is `"_real_file.mp3"`, not the
`"real_file.mp3"` the claim states. -/
theorem filename_label_example_fails :
    extract_filename (some (strOf "Label, real_file.mp3"))
      = .ok (strOf "_real_file.mp3") ∧
    strOf "_real_file.mp3" ≠ strOf "real_file.mp3" := by
  decide

/-- C6 (amended): for a suggested name of the form `a ++ "," ++ b` with no
further separator, the derived filename is `b` with whitespace normalised to
underscores — the normalisation is applied before the split, so whitespace
adjacent to the separator survives as underscores (`"Label, real_file.mp3"`
yields `"_real_file.mp3"`); with no separator the whole cleaned string is the
filename; with no `download` attribute the candidate errors. -/
theorem filename_second_element (a b s : Str)
    (ha : ',' ∉ a) (hb : ',' ∉ b) (hs : ',' ∉ s) :
    extract_filename (some (a ++ ',' :: b)) = .ok (cleanName b) ∧
    extract_filename (some s) = .ok (cleanName s) ∧
    extract_filename (some (strOf "Label, real_file.mp3"))
      = .ok (strOf "_real_file.mp3") ∧
    extract_filename none = .error (strOf "No download attribute found") := by
  refine ⟨?_, ?_, by decide, rfl⟩
  · rw [extract_filename]
    have hclean : cleanName (a ++ ',' :: b) = cleanName a ++ ',' :: cleanName b := by
      simp [cleanName]
    have hsplit : (cleanName (a ++ ',' :: b)).splitOn ','
        = [cleanName a, cleanName b] := by
      rw [hclean]
      exact splitOn_second (comma_not_mem_cleanName ha) (comma_not_mem_cleanName hb)
    simp [hsplit]
  · rw [extract_filename]
    have hsplit : (cleanName s).splitOn ',' = [cleanName s] := by
      rw [List.splitOn]
      exact List.splitOnP_eq_single _ _ (no_comma_beq (comma_not_mem_cleanName hs))
    simp [hsplit]

theorem filename_second_element_witness :
    extract_filename (some (strOf "Label" ++ ',' :: strOf " real_file.mp3"))
      = .ok (cleanName (strOf " real_file.mp3")) :=
  (filename_second_element (strOf "Label") (strOf " real_file.mp3")
      (strOf "nosep") (by decide) (by decide) (by decide)).1

/-- C7: on a readable ledger of content C, the existence check for reference R
returns true exactly when R occurs as a contiguous substring of C — matching is
substring containment against the raw ledger text, not exact-key matching — so
a reference that is merely a substring of an unrelated stored reference is
reported as already downloaded (here `bc.mp3`, never recorded, is reported
present because `//x/abc.mp3` is). -/
theorem exists_iff_substring :
    (∀ C R : Str, is_already_downloaded (.ok C) R = .ok true ↔ occursIn R C) ∧
    is_already_downloaded
        (.ok (headerText ++ recordLine (strOf "20240101000000")
            (strOf "//x/abc.mp3")))
        (strOf "bc.mp3") = .ok true := by
  have hiff : ∀ C R : Str,
      is_already_downloaded (.ok C) R = .ok true ↔ occursIn R C := by
    intro C R
    simp only [is_already_downloaded, Except.ok.injEq]
    exact strContains_iff C R
  refine ⟨hiff, ?_⟩
  decide

theorem exists_iff_substring_witness :
    is_already_downloaded (.ok (strOf "xabc")) (strOf "ab") = .ok true :=
  (exists_iff_substring.1 (strOf "xabc") (strOf "ab")).mpr
    ⟨strOf "x", strOf "c", by decide⟩

/-- C8 counterexample: on an unreadable ledger the check does return
`Ok(false)`, but the `Err(_)` arm of `is_already_downloaded` (`main.rs:144`)
binds the error to `_` and produces no output: the read error is not
logged or reported, contrary to the claim's second half. -/
theorem exists_error_not_logged :
    (is_already_downloaded_logged (.error (strOf "permission denied"))
        (strOf "/a.mp3")).1 = .ok false ∧
    (is_already_downloaded_logged (.error (strOf "permission denied"))
        (strOf "/a.mp3")).2 = [] := by
  decide

/-- C8 (amended): for every reference, an unreadable ledger makes the
existence check fail open — it returns `Ok(false)` rather than an error, so
read errors never block new work — but the error is silently discarded: the
function emits no log line. -/
theorem exists_fails_open (e : IOErr) (url : Str) :
    is_already_downloaded (.error e) url = .ok false ∧
    is_already_downloaded_logged (.error e) url = (.ok false, []) ∧
    (is_already_downloaded_logged (.error e) url).1
      = is_already_downloaded (.error e) url :=
  ⟨rfl, rfl, rfl⟩

/-- C9 counterexample: `record_download` called on an absent file creates it
empty (`OpenOptions::create(true)`) and appends only the timestamped line; the
resulting content does not contain the header, which only
`PodcastDownloader::new` writes. -/
theorem record_creates_without_header :
    record_download (strOf "20240101000000") (strOf "/a.mp3") none
      = some (recordLine (strOf "20240101000000") (strOf "/a.mp3")) ∧
    strContains (recordLine (strOf "20240101000000") (strOf "/a.mp3"))
        headerText = false := by
  decide

/-- C9 (amended): `record_download` appends exactly one timestamped line
`"{timestamp} {reference}\n"` containing the reference, in append mode
(existing content is preserved as a prefix); a file absent at the time of the
call is created holding only that line, without the header — the header is
written separately, by the constructor, when the ledger file does not exist. -/
theorem record_appends_line (ts url : Str) (file : Option Str) (c : Str)
    (hc : file = some c) :
    record_download ts url file = some (c ++ recordLine ts url) ∧
    record_download ts url none = some (recordLine ts url) ∧
    occursIn url (recordLine ts url) ∧
    recordLine ts url = ts ++ [' '] ++ url ++ ['\n'] ∧
    initLedger none = some headerText := by
  subst hc
  exact ⟨rfl, rfl, occursIn_recordLine ts url, by simp [recordLine], rfl⟩

theorem record_appends_line_witness :
    record_download (strOf "20240101000000") (strOf "/u.mp3") (some headerText)
      = some (headerText ++ recordLine (strOf "20240101000000") (strOf "/u.mp3")) :=
  (record_appends_line (strOf "20240101000000") (strOf "/u.mp3")
      (some headerText) headerText rfl).1

/-- C10: every ledger existence check runs during the listing scan, against
the ledger as it stood before any download was dispatched or recorded
(`collect_tasks` reads one fixed `ledgerRead`); consequently a reference that
appears twice in one listing and is not yet recorded is dispatched twice, and
each successful fetch appends its own ledger entry — dedup applies across
runs, not within a run. -/
theorem duplicate_candidates_both_dispatched
    (h : Str) (attr : Option Str) (f c ts : Str) (fetchOk recOk : Str → Bool)
    (hmark : strContains h lowQualityMarker = false)
    (hled : strContains c h = false)
    (hfn : extract_filename attr = .ok f)
    (hfo : fetchOk h = true) (hro : recOk h = true) :
    collect_tasks (.ok c) [⟨h, attr⟩, ⟨h, attr⟩] = .ok [(h, f), (h, f)] ∧
    (runTasks fetchOk recOk ts ⟨some c, [], 0, 0⟩ [(h, f), (h, f)]).ledger
      = some (c ++ recordLine ts h ++ recordLine ts h) ∧
    (runTasks fetchOk recOk ts ⟨some c, [], 0, 0⟩ [(h, f), (h, f)]).completed
      = 2 := by
  refine ⟨?_, ?_, ?_⟩
  · simp [collect_tasks, is_already_downloaded, hmark, hled, hfn]
  · simp [runTasks, runTask, hfo, hro, record_download, List.append_assoc]
  · simp [runTasks, runTask, hfo, hro, record_download]

theorem duplicate_candidates_both_dispatched_witness :
    collect_tasks (.ok headerText)
        [⟨strOf "/a.mp3", some (strOf "x,a.mp3")⟩,
         ⟨strOf "/a.mp3", some (strOf "x,a.mp3")⟩]
      = .ok [(strOf "/a.mp3", strOf "a.mp3"), (strOf "/a.mp3", strOf "a.mp3")] :=
  (duplicate_candidates_both_dispatched (strOf "/a.mp3")
      (some (strOf "x,a.mp3")) (strOf "a.mp3") headerText (strOf "t")
      (fun _ => true) (fun _ => true)
      (by decide) (by decide) (by decide) (by decide) (by decide)).1
